import Mathlib

/-!
Verification of the scflow single-nuclei quantification pipeline
(`scpipelines/pipeline_singlenuclei.py`) against its design specification.

The repository source under scrutiny contains the pipeline orchestration
(`getTranscript2GeneMap`, the `DATADIR` selection at module load, the BUS
text conversion and counting tasks).  The quantification core itself
(`bus2count.py`, invoked by the `busCount` task) is not part of the
source tree; every definition for it below is modelled from the design
specification, as flagged in the individual doc comments.

The file is organised as: all definitions (the embedding), then the
theorems about them.
-/

attribute [local semireducible] Rat.mul Rat.add Rat.sub Rat.inv

namespace Scflow

/-! ## Utilities: first-occurrence deduplication and lexicographic order -/

/-- Deduplicate keeping the first occurrence of each element, skipping
elements already in `seen`. -/
def firstDedupAux {α : Type} [DecidableEq α] (seen : List α) :
    List α → List α
  | [] => []
  | a :: l =>
      if a ∈ seen then firstDedupAux seen l
      else a :: firstDedupAux (a :: seen) l

/-- The distinct elements of a list, in order of first appearance. -/
def firstDedup {α : Type} [DecidableEq α] (l : List α) : List α :=
  firstDedupAux [] l

/-- Strict lexicographic order on character lists (code-point order, as
Python string comparison). -/
def lexLt : List Char → List Char → Bool
  | [], [] => false
  | [], _ :: _ => true
  | _ :: _, [] => false
  | a :: as, b :: bs =>
      if a < b then true else if b < a then false else lexLt as bs

/-- Strict lexicographic order on strings. -/
def strLt (a b : String) : Bool :=
  lexLt a.data b.data

/-- Reflexive lexicographic order on strings. -/
def strLe (a b : String) : Bool :=
  strLt a b || a = b

/-! ## Python value and exception model

Used for the module-load `DATADIR` selection and for
`getTranscript2GeneMap`, both translated from
`pipeline_singlenuclei.py`. -/

/-- A Python runtime value as far as the pipeline configuration needs:
an integer or a string. -/
inductive PyVal
| int (n : Int)
| str (s : String)
deriving DecidableEq

/-- The Python exceptions relevant to the translated code paths. -/
inductive PyError
| valueError
| keyError
| nameError
deriving DecidableEq

/-- The `DATADIR` selection at module load
(`pipeline_singlenuclei.py` lines 112-122):

```
try:
    PARAMS['data']
except NameError:
    DATADIR = "."
else:
    if PARAMS['data'] == 0:
        DATADIR = "."
    elif PARAMS['data'] == 1:
        DATADIR = "data.dir"
    else:
        DATADIR = PARAMS['data']
```

A missing key in the parameter dictionary raises `KeyError`; the
`except` clause catches only `NameError`, so the handler result `"."`
is produced only when the body raises `NameError`. -/
def dataDirOf (params : String → Option PyVal) : Except PyError PyVal :=
  let body : Except PyError PyVal :=
    match params "data" with
    | none => Except.error PyError.keyError
    | some v => Except.ok v
  match body with
  | Except.error e =>
      if e = PyError.nameError then Except.ok (PyVal.str ".") else Except.error e
  | Except.ok v =>
      Except.ok
        (if v = PyVal.int 0 then PyVal.str "."
         else if v = PyVal.int 1 then PyVal.str "data.dir"
         else v)

/-! ## Quantification core: data model

Modelled from the spec: the quantification core (`bus2count.py`, invoked
by the `busCount` task) is not part of the source tree; §3 of the design
document gives the record data model. -/

/-- Modelled from the spec: a parsed pseudoalignment record
(spec §3 "Record"): barcode, UMI, equivalence-class ID, multiplicity. -/
structure Record where
  barcode : String
  umi : String
  ec : Nat
  mult : Nat
deriving DecidableEq

/-- Modelled from the spec: the multi-gene UMI resolution policy
(spec §6 `multi_gene_policy: enum\x7bdiscard, fractional_split\x7d`). -/
inductive MultiGenePolicy
| discard
| fractionalSplit
deriving DecidableEq

/-! ## Equivalence-Class Resolver (spec §4.2) -/

/-- Modelled from the spec: the records the Resolver passes on — those
whose equivalence class is present in the EquivalenceClass→GeneSet map
(spec §4.2).  Unknown classes are rejected non-fatally. -/
def resolvedRecords (m : Nat → Option (List String)) (s : List Record) :
    List Record :=
  s.filter fun r => (m r.ec).isSome

/-- Modelled from the spec: the `dropped_unmapped_class` metric — the
number of records whose equivalence class is absent from the map
(spec §4.2, §7). -/
def droppedUnmappedClass (m : Nat → Option (List String)) (s : List Record) :
    Nat :=
  (s.filter fun r => (m r.ec).isNone).length

/-! ## Barcode Corrector (spec §4.3) -/

/-- Total supporting multiplicity (read count, not UMI-deduplicated) of a
barcode in the stream.  Modelled from the spec (§4.3). -/
def bcTotal (s : List Record) (b : String) : Nat :=
  ((s.filter fun r => r.barcode = b).map Record.mult).sum

/-- The distinct barcodes observed in the stream, in order of first
appearance.  Modelled from the spec (§4.3). -/
def observedBarcodes (s : List Record) : List String :=
  firstDedup (s.map Record.barcode)

/-- Predicate `oneSubChars a b` holds when the character lists differ in exactly
one position (a single-substitution variant).  Modelled from the spec
(§4.3 "generate all single-substitution variants over the alphabet"). -/
def oneSubChars : List Char → List Char → Bool
  | [], [] => false
  | a :: as, b :: bs => if a = b then oneSubChars as bs else as = bs
  | _, _ => false

/-- Single-substitution relation on barcodes. -/
def oneSub (x y : String) : Bool :=
  oneSubChars x.data y.data

/-- Modelled from the spec: the observed single-substitution variants of
`b` whose total multiplicity is at least `mult` times the total
multiplicity of `b` (spec §4.3, configurable multiplier, default 10). -/
def mergeCandidates (s : List Record) (mult : ℚ) (b : String) : List String :=
  (observedBarcodes s).filter fun v =>
    oneSub v b && decide (mult * (bcTotal s b : ℚ) ≤ (bcTotal s v : ℚ))

/-- Keep the better of a candidate and the current best: higher total
multiplicity wins, ties broken by lexically smaller barcode. -/
def pickBetter (s : List Record) (v : String) (acc : Option String) :
    Option String :=
  match acc with
  | none => some v
  | some w =>
      if bcTotal s w < bcTotal s v ∨
          (bcTotal s v = bcTotal s w ∧ strLt v w = true) then
        some v
      else some w

/-- Modelled from the spec: the canonical barcode a barcode merges into,
if any — the dominating single-substitution variant (spec §4.3; each
barcode merges into at most one canonical form, one hop only). -/
def mergeTarget (s : List Record) (mult : ℚ) (b : String) : Option String :=
  (mergeCandidates s mult b).foldl (fun acc v => pickBetter s v acc) none

/-- Modelled from the spec: the barcode-correction map (spec §4.3):
a barcode is re-labelled to its dominating single-substitution variant
when one exists, and stands on its own otherwise. -/
def corrBarcode (s : List Record) (mult : ℚ) (b : String) : String :=
  (mergeTarget s mult b).getD b

/-! ## UMI Deduplication & Aggregation Engine (spec §4.4) -/

/-- Intersection of a family of gene sets; the intersection of a
single-set family is that set. -/
def interAll : List (List String) → List String
  | [] => []
  | [g] => g
  | g :: gs => g.inter (interAll gs)

/-- The resolved gene-sets of the records of one (barcode, UMI) group.
Modelled from the spec (§4.4). -/
def groupGeneSets (m : Nat → Option (List String)) (recs : List Record) :
    List (List String) :=
  recs.filterMap fun r => m r.ec

/-- The distinct genes in the intersection of a group's resolved
gene-sets.  Modelled from the spec (§4.4). -/
def groupInter (m : Nat → Option (List String)) (recs : List Record) :
    List String :=
  firstDedup (interAll (groupGeneSets m recs))

/-- Modelled from the spec: the count contribution of one
(barcode, UMI) group to gene `g` (spec §4.4): 1 when the intersection is
the single gene `g`; under the `fractional_split` policy, an equal
fraction when the intersection has several genes including `g`;
otherwise 0 (in particular 0 everywhere when the intersection is empty —
the group is discarded). -/
def groupContrib (m : Nat → Option (List String)) (pol : MultiGenePolicy)
    (recs : List Record) (g : String) : ℚ :=
  let I := groupInter m recs
  if I.length = 1 ∧ g ∈ I then 1
  else if 2 ≤ I.length ∧ g ∈ I ∧ pol = MultiGenePolicy.fractionalSplit then
    1 / (I.length : ℚ)
  else 0

/-- The running aggregate of the Deduplication & Aggregation Engine:
the (Barcode, Gene) → Count table and the `dropped_ambiguous_umi`
metric.  Modelled from the spec (§3, §4.4). -/
structure AggState where
  counts : String → String → ℚ
  droppedAmbiguous : Nat

/-- The empty aggregate. -/
def emptyAgg : AggState :=
  { counts := fun _ _ => 0, droppedAmbiguous := 0 }

/-- Process one (barcode, UMI) group: add its contribution to the
barcode's per-gene counts, and tally it under `dropped_ambiguous_umi`
when the gene-set intersection is empty.  Modelled from the spec
(§4.4). -/
def applyGroup (m : Nat → Option (List String)) (pol : MultiGenePolicy)
    (b : String) (recs : List Record) (st : AggState) : AggState :=
  { counts := fun b' g =>
      st.counts b' g + if b = b' then groupContrib m pol recs g else 0,
    droppedAmbiguous :=
      st.droppedAmbiguous + if groupInter m recs = [] then 1 else 0 }

/-- The distinct (canonical barcode, UMI) group keys of a resolved
stream, in order of first appearance.  Modelled from the spec (§4.4
"group tuples by (canonical barcode, UMI)"). -/
def groupKeys (corr : String → String) (rs : List Record) :
    List (String × String) :=
  firstDedup (rs.map fun r => (corr r.barcode, r.umi))

/-- The records of one (canonical barcode, UMI) group. -/
def groupRecs (corr : String → String) (rs : List Record)
    (k : String × String) : List Record :=
  rs.filter fun r => decide (corr r.barcode = k.1 ∧ r.umi = k.2)

/-- One engine step: fold one group key into the aggregate. -/
def engineStep (m : Nat → Option (List String)) (pol : MultiGenePolicy)
    (corr : String → String) (rs : List Record) (st : AggState)
    (k : String × String) : AggState :=
  applyGroup m pol k.1 (groupRecs corr rs k) st

/-- The Deduplication & Aggregation Engine on an already-resolved
stream: group by (canonical barcode, UMI) and fold the groups into the
aggregate.  Modelled from the spec (§4.4). -/
def engineOf (m : Nat → Option (List String)) (pol : MultiGenePolicy)
    (corr : String → String) (rs : List Record) : AggState :=
  (groupKeys corr rs).foldl (engineStep m pol corr rs) emptyAgg

/-- The engine applied to a raw stream: the Resolver rejects
unmapped-class records, then the engine aggregates the rest.  Modelled
from the spec (§4.2, §4.4). -/
def runEngine (m : Nat → Option (List String)) (pol : MultiGenePolicy)
    (corr : String → String) (s : List Record) : AggState :=
  engineOf m pol corr (resolvedRecords m s)

/-- Combine two partial aggregates: counts add pointwise, metrics add.
Modelled from the spec (§5: per-worker aggregates are "merged only at
finalization (a single combine step)"). -/
def mergeAgg (a b : AggState) : AggState :=
  { counts := fun b' g => a.counts b' g + b.counts b' g,
    droppedAmbiguous := a.droppedAmbiguous + b.droppedAmbiguous }

/-! ## Cell Caller and Matrix Assembler (spec §4.5, §4.6) -/

/-- All genes of the resolved stream, in order of first appearance.
Modelled from the spec (§3 CountMatrix columns). -/
def genesOf (m : Nat → Option (List String)) (rs : List Record) :
    List String :=
  firstDedup (rs.filterMap fun r => m r.ec).flatten

/-- The canonical barcodes of the resolved stream, in order of first
appearance. -/
def barcodesOf (corr : String → String) (rs : List Record) : List String :=
  firstDedup (rs.map fun r => corr r.barcode)

/-- Total UMI count of a barcode: the sum of its per-gene counts.
Modelled from the spec (§4.5). -/
def totalCount (counts : String → String → ℚ) (genes : List String)
    (b : String) : ℚ :=
  (genes.map fun g => counts b g).sum

/-- The ranking order of the Cell Caller: higher total count first, ties
broken by barcode lexical order.  Modelled from the spec (§4.5). -/
def rankRel (t : String → ℚ) (a b : String) : Prop :=
  t b < t a ∨ (t a = t b ∧ strLe a b = true)

instance rankRelDecidable (t : String → ℚ) : DecidableRel (rankRel t) :=
  fun a b => by unfold rankRel; infer_instance

/-- Barcodes sorted descending by total count, ties broken by lexical
order.  Modelled from the spec (§4.5). -/
def rankedBarcodes (t : String → ℚ) (bs : List String) : List String :=
  List.insertionSort (rankRel t) bs

/-- Absolute value on ℚ. -/
def ratAbs (q : ℚ) : ℚ :=
  if q < 0 then -q else q

/-- Modelled from the spec: the knee heuristic score at 1-based rank `r`
of the count curve `c` — the magnitude of the discrete second difference
of the curve (§4.5 "maximum second-derivative magnitude on the smoothed
log-log curve" is modelled by the discrete second difference of the
count curve; the claims under verification are independent of the exact
scoring function). -/
def kneeScore (c : List ℚ) (r : Nat) : ℚ :=
  ratAbs (c.getD (r - 2) 0 - 2 * c.getD (r - 1) 0 + c.getD r 0)

/-- Modelled from the spec: the 1-based ranks searched for the knee
(§4.5): the window `[0.1×, 10×]` of the expected-cell-count, or the full
rank range when the expected-cell-count is zero. -/
def kneeWindow (n expCells : Nat) : List Nat :=
  ((List.range n).map fun i => i + 1).filter fun r =>
    if expCells = 0 then true
    else decide ((expCells : ℚ) / 10 ≤ (r : ℚ) ∧ (r : ℚ) ≤ 10 * (expCells : ℚ))

/-- Modelled from the spec: the knee rank — the rank of maximum score
within the search window, the earliest such rank on ties (§4.5). -/
def kneeRank (c : List ℚ) (expCells : Nat) : Option Nat :=
  (kneeWindow c.length expCells).foldl
    (fun acc r =>
      match acc with
      | none => some r
      | some best => if kneeScore c best < kneeScore c r then some r else some best)
    none

/-- The final output of the quantification core: the sparse matrix
(1-indexed nonzero triples), the row barcode index, the column gene
index, the knee rank, and the run metrics.  Modelled from the spec
(§4.6, §6). -/
structure QuantOutput where
  matrix : List (Nat × Nat × ℚ)
  rowBarcodes : List String
  colGenes : List String
  kneeAt : Option Nat
  droppedUnmapped : Nat
  droppedAmbiguous : Nat
deriving DecidableEq

/-- Cell Caller plus Matrix Assembler on a resolved stream and an
aggregate: rank barcodes, find the knee, retain the barcodes above it,
and emit the nonzero `(cell_index, gene_index, count)` triples
(1-indexed) with the row and column index lists.  Modelled from the
spec (§4.5, §4.6). -/
def assemble (m : Nat → Option (List String)) (expCells : Nat)
    (rs : List Record) (corr : String → String) (st : AggState)
    (dunm : Nat) : QuantOutput :=
  let genes := genesOf m rs
  let t := totalCount st.counts genes
  let ranked := rankedBarcodes t (barcodesOf corr rs)
  let kr := kneeRank (ranked.map t) expCells
  let retained := match kr with | none => [] | some r => ranked.take r
  { matrix :=
      (retained.enum.map fun ib =>
        genes.enum.filterMap fun jg =>
          if st.counts ib.2 jg.2 = 0 then none
          else some (ib.1 + 1, jg.1 + 1, st.counts ib.2 jg.2)).flatten,
    rowBarcodes := retained,
    colGenes := genes,
    kneeAt := kr,
    droppedUnmapped := dunm,
    droppedAmbiguous := st.droppedAmbiguous }

/-- The quantification core with an externally supplied correction map:
resolve, aggregate, call cells, assemble.  Modelled from the spec
(§2 data flow). -/
def quantRunWith (m : Nat → Option (List String)) (expCells : Nat)
    (corr : String → String) (pol : MultiGenePolicy) (s : List Record) :
    QuantOutput :=
  assemble m expCells (resolvedRecords m s) corr (runEngine m pol corr s)
    (droppedUnmappedClass m s)

/-- The sequential quantification core: the correction map is built from
the whole stream, then the stream is resolved, aggregated, and
assembled.  Modelled from the spec (§2, §5). -/
def quantRun (m : Nat → Option (List String)) (expCells : Nat) (mult : ℚ)
    (pol : MultiGenePolicy) (s : List Record) : QuantOutput :=
  quantRunWith m expCells (corrBarcode s mult) pol s

/-- The chunked (multi-worker) quantification core: the correction map
and the metrics-independent global inputs are built from the whole
stream (the global synchronisation points of spec §5), each chunk is
resolved and aggregated by its own worker, the partial aggregates are
merged in a single combine step, and the merged aggregate is assembled.
Modelled from the spec (§5). -/
def chunkedQuantRun (m : Nat → Option (List String)) (expCells : Nat)
    (mult : ℚ) (pol : MultiGenePolicy) (cs : List (List Record)) :
    QuantOutput :=
  let s := cs.flatten
  let corr := corrBarcode s mult
  let merged := (cs.map fun c => runEngine m pol corr c).foldr mergeAgg emptyAgg
  assemble m expCells (resolvedRecords m s) corr merged
    ((cs.map fun c => droppedUnmappedClass m c).sum)

/-- Two chunks are canonically-barcode-disjoint when no record of one
shares a canonical (corrected) barcode with a record of the other
(spec §5: each worker owns a barcode range and no gene-count
contribution crosses a barcode boundary). -/
def chunkDisj (corr : String → String) (c d : List Record) : Prop :=
  ∀ r ∈ c, ∀ q ∈ d, corr r.barcode ≠ corr q.barcode

instance chunkDisjDecidable (corr : String → String) :
    ∀ c d, Decidable (chunkDisj corr c d) :=
  fun c d => by unfold chunkDisj; infer_instance

/-! ## Record Stream Reader (spec §4.1) -/

/-- Modelled from the spec: the reader's fatal error (spec §4.1, §7
`MalformedStreamError`). -/
inductive StreamError
| malformedStream
deriving DecidableEq

/-- Modelled from the spec: a raw parsed record line — the four
whitespace-delimited fields barcode, UMI, equivalence-class ID,
multiplicity (spec §6). -/
structure RawRec where
  barcode : String
  umi : String
  ec : String
  mult : String
deriving DecidableEq

/-- Modelled from the spec: parse the fields of one line into a record;
fails unless the line has exactly the expected four fields (spec §4.1). -/
def parseLine (l : List String) : Option RawRec :=
  match l with
  | [b, u, e, c] => some ⟨b, u, e, c⟩
  | _ => none

/-- The (barcode, UMI) sort key of a record. -/
def rawKey (r : RawRec) : String × String :=
  (r.barcode, r.umi)

/-- Non-decreasing order on (barcode, UMI) keys: barcode first, then
UMI.  Modelled from the spec (§3, §4.1 "sorted by barcode, then UMI"). -/
def keyLE (a b : String × String) : Bool :=
  strLt a.1 b.1 || (a.1 = b.1 && strLe a.2 b.2)

/-- Modelled from the spec: the Record Stream Reader (spec §4.1): parse
each line into the expected field count and validate monotonic
(barcode, UMI) ordering against the previous record; fail with
`MalformedStreamError` on the first violation. -/
def readStream : List (List String) → Option (String × String) →
    Except StreamError (List RawRec)
  | [], _ => Except.ok []
  | l :: ls, prev =>
      match parseLine l with
      | none => Except.error StreamError.malformedStream
      | some r =>
          match prev with
          | none => (readStream ls (some (rawKey r))).map fun rs => r :: rs
          | some k =>
              if keyLE k (rawKey r) then
                (readStream ls (some (rawKey r))).map fun rs => r :: rs
              else Except.error StreamError.malformedStream

/-- The (barcode, UMI) keys of the lines that parse. -/
def lineKeys (ls : List (List String)) : List (String × String) :=
  ls.filterMap fun l => (parseLine l).map rawKey

/-! ## getTranscript2GeneMap (`pipeline_singlenuclei.py` lines 411-448) -/

/-- A GTF entry as far as `getTranscript2GeneMap` reads it: a
(transcript_id, gene_id) pair. -/
structure GTFEntry where
  transcript_id : String
  gene_id : String
deriving DecidableEq

/-- One iteration of the `getTranscript2GeneMap` loop: if the
transcript_id is already mapped to a different gene_id, raise
`ValueError`; if it is mapped to the same gene_id, keep the dictionary;
otherwise insert the pair. -/
def t2gInsert (d : List (String × String)) (e : GTFEntry) :
    Except PyError (List (String × String)) :=
  match d.lookup e.transcript_id with
  | some g =>
      if g = e.gene_id then Except.ok d else Except.error PyError.valueError
  | none => Except.ok (d ++ [(e.transcript_id, e.gene_id)])

/-- The `getTranscript2GeneMap` dictionary-building loop over a list of
GTF entries. -/
def t2gBuild (d : List (String × String)) :
    List GTFEntry → Except PyError (List (String × String))
  | [] => Except.ok d
  | e :: es =>
      match t2gInsert d e with
      | Except.ok d2 => t2gBuild d2 es
      | Except.error err => Except.error err

/-- Sort order of Python `sorted(dict.items())` on string pairs:
lexicographic on the pair. -/
def pairLe (p q : String × String) : Bool :=
  strLt p.1 q.1 || (p.1 = q.1 && strLe p.2 q.2)

/-- The pair order as a relation. -/
def pairLeR (p q : String × String) : Prop :=
  pairLe p q = true

instance pairLeRDecidable : DecidableRel pairLeR :=
  fun p q => by unfold pairLeR; infer_instance

/-- The dictionary items in ascending sorted order. -/
def sortPairs (d : List (String × String)) : List (String × String) :=
  List.insertionSort pairLeR d

/-- The header line written by `getTranscript2GeneMap`. -/
def t2gHeader : String :=
  "transcript_id\tgene_id"

/-- A written output line: transcript_id, tab, gene_id. -/
def t2gLine (p : String × String) : String :=
  p.1 ++ "\t" ++ p.2

/-- Function `getTranscript2GeneMap` (`pipeline_singlenuclei.py` lines 411-448):
build the transcript→gene dictionary from the geneset (and, when
`mixed_species` is set, also the second geneset), raising `ValueError`
on a transcript_id associated with two distinct gene_ids; then write the
header line followed by one tab-separated line per dictionary item in
ascending sorted order. -/
def getTranscript2GeneMap (geneset : List GTFEntry) (mixedSpecies : Bool)
    (geneset2 : List GTFEntry) : Except PyError (List String) :=
  match t2gBuild [] geneset with
  | Except.error e => Except.error e
  | Except.ok d =>
      match (if mixedSpecies then t2gBuild d geneset2 else Except.ok d) with
      | Except.error e => Except.error e
      | Except.ok d2 => Except.ok (t2gHeader :: (sortPairs d2).map t2gLine)

/-- The full entry list `getTranscript2GeneMap` iterates over. -/
def t2gEntries (geneset : List GTFEntry) (mixedSpecies : Bool)
    (geneset2 : List GTFEntry) : List GTFEntry :=
  geneset ++ if mixedSpecies then geneset2 else []

/-- The (transcript_id, gene_id) pairs of a list of GTF entries. -/
def entryPairs (es : List GTFEntry) : List (String × String) :=
  es.map fun e => (e.transcript_id, e.gene_id)

/-- Some transcript_id is associated with two distinct gene_ids. -/
def hasConflict (es : List GTFEntry) : Prop :=
  ∃ e ∈ es, ∃ f ∈ es, e.transcript_id = f.transcript_id ∧
    e.gene_id ≠ f.gene_id

instance hasConflictDecidable (es : List GTFEntry) :
    Decidable (hasConflict es) := by
  unfold hasConflict; infer_instance

/-! ## Theorems -/

/-! ### Utility lemmas -/

theorem mem_firstDedupAux {α : Type} [DecidableEq α] (l : List α) :
    ∀ (seen : List α) (a : α),
      a ∈ firstDedupAux seen l ↔ a ∈ l ∧ a ∉ seen := by
  induction l with
  | nil => intro seen a; simp [firstDedupAux]
  | cons b l ih =>
      intro seen a
      by_cases hb : b ∈ seen
      · simp only [firstDedupAux, if_pos hb, ih]
        constructor
        · rintro ⟨h1, h2⟩; exact ⟨List.mem_cons_of_mem _ h1, h2⟩
        · rintro ⟨h1, h2⟩
          rcases List.mem_cons.mp h1 with h1 | h1
          · exact absurd (h1 ▸ hb) h2
          · exact ⟨h1, h2⟩
      · simp only [firstDedupAux, if_neg hb, List.mem_cons, ih]
        constructor
        · rintro (rfl | ⟨h1, h2⟩)
          · exact ⟨Or.inl rfl, hb⟩
          · exact ⟨Or.inr h1, fun hs => h2 (Or.inr hs)⟩
        · rintro ⟨rfl | h1, h2⟩
          · exact Or.inl rfl
          · by_cases hab : a = b
            · exact Or.inl hab
            · exact Or.inr ⟨h1, fun hs => hs.elim hab h2⟩

theorem mem_firstDedup {α : Type} [DecidableEq α] (l : List α) (a : α) :
    a ∈ firstDedup l ↔ a ∈ l := by
  simp [firstDedup, mem_firstDedupAux]

theorem nodup_firstDedupAux {α : Type} [DecidableEq α] (l : List α) :
    ∀ seen : List α, (firstDedupAux seen l).Nodup := by
  induction l with
  | nil => intro seen; simp [firstDedupAux]
  | cons b l ih =>
      intro seen
      by_cases hb : b ∈ seen
      · simpa [firstDedupAux, if_pos hb] using ih seen
      · simp only [firstDedupAux, if_neg hb, List.nodup_cons]
        refine ⟨fun hmem => ?_, ih _⟩
        exact ((mem_firstDedupAux l _ b).mp hmem).2 (List.mem_cons_self b seen)

theorem nodup_firstDedup {α : Type} [DecidableEq α] (l : List α) :
    (firstDedup l).Nodup :=
  nodup_firstDedupAux l []

theorem firstDedupAux_congr_seen {α : Type} [DecidableEq α] (l : List α) :
    ∀ seen₁ seen₂ : List α, (∀ a ∈ l, (a ∈ seen₁ ↔ a ∈ seen₂)) →
      firstDedupAux seen₁ l = firstDedupAux seen₂ l := by
  induction l with
  | nil => intro _ _ _; rfl
  | cons b l ih =>
      intro seen₁ seen₂ h
      have hb := h b (List.mem_cons_self b l)
      by_cases hb1 : b ∈ seen₁
      · rw [firstDedupAux, firstDedupAux, if_pos hb1, if_pos (hb.mp hb1)]
        exact ih _ _ fun a ha => h a (List.mem_cons_of_mem _ ha)
      · have hb2 : b ∉ seen₂ := fun hx => hb1 (hb.mpr hx)
        rw [firstDedupAux, firstDedupAux, if_neg hb1, if_neg hb2]
        refine congrArg _ (ih _ _ fun a ha => ?_)
        simp only [List.mem_cons]
        rw [h a (List.mem_cons_of_mem _ ha)]

theorem firstDedupAux_append_disjoint {α : Type} [DecidableEq α] :
    ∀ (l₁ l₂ : List α) (seen : List α),
      (∀ a ∈ l₂, a ∉ l₁ ∧ a ∉ seen) →
      firstDedupAux seen (l₁ ++ l₂) =
        firstDedupAux seen l₁ ++ firstDedupAux [] l₂ := by
  intro l₁
  induction l₁ with
  | nil =>
      intro l₂ seen h
      simp only [List.nil_append, firstDedupAux]
      exact firstDedupAux_congr_seen l₂ seen [] fun a ha => by
        simp [(h a ha).2]
  | cons b l₁ ih =>
      intro l₂ seen h
      by_cases hb : b ∈ seen
      · rw [List.cons_append, firstDedupAux, if_pos hb, firstDedupAux,
          if_pos hb]
        exact ih l₂ seen fun a ha =>
          ⟨fun hx => (h a ha).1 (List.mem_cons_of_mem _ hx), (h a ha).2⟩
      · rw [List.cons_append, firstDedupAux, if_neg hb, firstDedupAux,
          if_neg hb, List.cons_append]
        refine congrArg _ (ih l₂ (b :: seen) fun a ha => ?_)
        refine ⟨fun hx => (h a ha).1 (List.mem_cons_of_mem _ hx), ?_⟩
        intro hx
        rcases List.mem_cons.mp hx with rfl | hx
        · exact (h a ha).1 (List.mem_cons_self a l₁)
        · exact (h a ha).2 hx

theorem firstDedup_append_disjoint {α : Type} [DecidableEq α]
    (l₁ l₂ : List α) (h : ∀ a ∈ l₂, a ∉ l₁) :
    firstDedup (l₁ ++ l₂) = firstDedup l₁ ++ firstDedup l₂ :=
  firstDedupAux_append_disjoint l₁ l₂ [] fun a ha =>
    ⟨h a ha, List.not_mem_nil a⟩

/-- A fold with a step that either keeps the accumulator or moves to the
current element can only ever return an element of the list (or the
start value). -/
theorem foldl_choice_mem {α : Type} (f : Option α → α → Option α)
    (hf : ∀ acc x, f acc x = acc ∨ f acc x = some x) :
    ∀ (l : List α) (acc : Option α) (v : α),
      l.foldl f acc = some v → acc = some v ∨ v ∈ l := by
  intro l
  induction l with
  | nil => intro acc v h; exact Or.inl h
  | cons x xs ih =>
      intro acc v h
      simp only [List.foldl_cons] at h
      rcases ih (f acc x) v h with h1 | h1
      · rcases hf acc x with h2 | h2
        · exact Or.inl (h2 ▸ h1)
        · right
          rw [h2] at h1
          simp only [Option.some.injEq] at h1
          simp [h1]
      · right; simp [h1]

/-! ### Claim C10 -/

/-- Claim C10: the `DATADIR` selection maps `data=0` to `"."`, `data=1`
to `"data.dir"`, any other present value to the value itself; and when
the `data` key is absent the lookup raises `KeyError`, which propagates
(the `except NameError` handler never fires, so `DATADIR` is never
defaulted to `"."` on a missing key). -/
theorem c10_datadir_selection (params : String → Option PyVal) :
    (params "data" = some (PyVal.int 0) →
      dataDirOf params = Except.ok (PyVal.str ".")) ∧
    (params "data" = some (PyVal.int 1) →
      dataDirOf params = Except.ok (PyVal.str "data.dir")) ∧
    (∀ v, params "data" = some v → v ≠ PyVal.int 0 → v ≠ PyVal.int 1 →
      dataDirOf params = Except.ok v) ∧
    (params "data" = none →
      dataDirOf params = Except.error PyError.keyError) := by
  refine ⟨?_, ?_, ?_, ?_⟩
  · intro h; simp [dataDirOf, h]
  · intro h; simp [dataDirOf, h]
  · intro v h h0 h1; simp [dataDirOf, h, h0, h1]
  · intro h; simp [dataDirOf, h]

/-- Concrete instantiations of `c10_datadir_selection`: singleton
parameter dictionaries holding `data=0`, `data=1`, `data="runs"`, and
the empty dictionary. -/
theorem c10_datadir_selection_witness :
    dataDirOf (fun k => if k = "data" then some (PyVal.int 0) else none) =
      Except.ok (PyVal.str ".") ∧
    dataDirOf (fun k => if k = "data" then some (PyVal.int 1) else none) =
      Except.ok (PyVal.str "data.dir") ∧
    dataDirOf (fun k => if k = "data" then some (PyVal.str "runs") else none) =
      Except.ok (PyVal.str "runs") ∧
    dataDirOf (fun _ => none) = Except.error PyError.keyError := by
  refine ⟨?_, ?_, ?_, ?_⟩
  · exact (c10_datadir_selection _).1 (by simp)
  · exact (c10_datadir_selection _).2.1 (by simp)
  · exact (c10_datadir_selection _).2.2.1 (PyVal.str "runs") (by simp)
      (by simp) (by simp)
  · exact (c10_datadir_selection _).2.2.2 rfl

/-! ### Claim C2 -/

/-- Step `pickBetter` keeps the accumulator or moves to the candidate. -/
theorem pickBetter_choice (s : List Record) :
    ∀ (acc : Option String) (v : String),
      (fun acc v => pickBetter s v acc) acc v = acc ∨
      (fun acc v => pickBetter s v acc) acc v = some v := by
  intro acc v
  cases acc with
  | none => right; rfl
  | some w =>
      simp only [pickBetter]
      split
      · right; rfl
      · left; rfl

/-- A merge target is always one of the merge candidates. -/
theorem mergeTarget_mem_candidates (s : List Record) (mult : ℚ) (b v : String)
    (h : mergeTarget s mult b = some v) : v ∈ mergeCandidates s mult b := by
  rcases foldl_choice_mem _ (pickBetter_choice s) _ _ _ h with h1 | h1
  · cases h1
  · exact h1

/-- Claim C2: the Barcode Corrector never merges a barcode into a
single-substitution variant whose total multiplicity is below the
configured multiplier times the lower-count barcode's multiplicity:
whenever `corrBarcode` re-labels `b` to a different barcode `v`, `v` is
an observed single-substitution variant of `b` with
`mult * bcTotal b ≤ bcTotal v`.  In particular ties and comparable
magnitudes (total multiplicity below the threshold) leave the barcode
uncorrected. -/
theorem c2_correction_threshold (s : List Record) (mult : ℚ) (b : String)
    (h : corrBarcode s mult b ≠ b) :
    corrBarcode s mult b ∈ observedBarcodes s ∧
    oneSub (corrBarcode s mult b) b = true ∧
    mult * (bcTotal s b : ℚ) ≤ (bcTotal s (corrBarcode s mult b) : ℚ) := by
  unfold corrBarcode at h ⊢
  cases htgt : mergeTarget s mult b with
  | none => rw [htgt] at h; simp at h
  | some v =>
      simp only [htgt, Option.getD_some]
      have hv := mergeTarget_mem_candidates s mult b v htgt
      unfold mergeCandidates at hv
      rw [List.mem_filter] at hv
      rcases hv with ⟨hmem, hcond⟩
      simp only [Bool.and_eq_true, decide_eq_true_eq] at hcond
      exact ⟨hmem, hcond.1, hcond.2⟩

/-- Concrete instantiation of `c2_correction_threshold`: a stream where
barcode `AAT` (total 1) merges into its dominating variant `AAA`
(total 10) at multiplier 10. -/
theorem c2_correction_threshold_witness :
    corrBarcode [⟨"AAA", "U1", 0, 10⟩, ⟨"AAT", "U2", 0, 1⟩] 10 "AAT" ≠ "AAT" ∧
    (corrBarcode [⟨"AAA", "U1", 0, 10⟩, ⟨"AAT", "U2", 0, 1⟩] 10 "AAT" ∈
      observedBarcodes [⟨"AAA", "U1", 0, 10⟩, ⟨"AAT", "U2", 0, 1⟩] ∧
     oneSub (corrBarcode [⟨"AAA", "U1", 0, 10⟩, ⟨"AAT", "U2", 0, 1⟩] 10 "AAT")
       "AAT" = true ∧
     (10 : ℚ) *
        (bcTotal [⟨"AAA", "U1", 0, 10⟩, ⟨"AAT", "U2", 0, 1⟩] "AAT" : ℚ) ≤
      (bcTotal [⟨"AAA", "U1", 0, 10⟩, ⟨"AAT", "U2", 0, 1⟩]
        (corrBarcode [⟨"AAA", "U1", 0, 10⟩, ⟨"AAT", "U2", 0, 1⟩] 10 "AAT") :
          ℚ)) :=
  ⟨by decide, c2_correction_threshold _ 10 "AAT" (by decide)⟩

/-! ### Engine fold characterisation -/

theorem foldl_engine_counts (m : Nat → Option (List String))
    (pol : MultiGenePolicy) (corr : String → String) (rs : List Record) :
    ∀ (keys : List (String × String)) (st : AggState) (b g : String),
      (keys.foldl (engineStep m pol corr rs) st).counts b g =
        st.counts b g +
          (keys.map fun k =>
            if k.1 = b then groupContrib m pol (groupRecs corr rs k) g
            else 0).sum := by
  intro keys
  induction keys with
  | nil => intro st b g; simp
  | cons k ks ih =>
      intro st b g
      simp only [List.foldl_cons, List.map_cons, List.sum_cons]
      rw [ih]
      simp only [engineStep, applyGroup]
      ring

theorem foldl_engine_dropped (m : Nat → Option (List String))
    (pol : MultiGenePolicy) (corr : String → String) (rs : List Record) :
    ∀ (keys : List (String × String)) (st : AggState),
      (keys.foldl (engineStep m pol corr rs) st).droppedAmbiguous =
        st.droppedAmbiguous +
          (keys.map fun k =>
            if groupInter m (groupRecs corr rs k) = [] then 1 else 0).sum := by
  intro keys
  induction keys with
  | nil => intro st; simp
  | cons k ks ih =>
      intro st
      simp only [List.foldl_cons, List.map_cons, List.sum_cons]
      rw [ih]
      simp only [engineStep, applyGroup]
      omega

theorem sum_ite_one_nat {α : Type} (p : α → Prop) [DecidablePred p] :
    ∀ l : List α,
      (l.map fun a => if p a then (1 : Nat) else 0).sum =
        (l.filter fun a => decide (p a)).length := by
  intro l
  induction l with
  | nil => rfl
  | cons a l ih =>
      by_cases h : p a <;>
        simp [List.filter_cons, h, ih, Nat.add_comm]

theorem sum_ite_one_rat {α : Type} (p : α → Prop) [DecidablePred p] :
    ∀ l : List α,
      (l.map fun a => if p a then (1 : ℚ) else 0).sum =
        ((l.filter fun a => decide (p a)).length : ℚ) := by
  intro l
  induction l with
  | nil => rfl
  | cons a l ih =>
      by_cases h : p a <;>
        simp [List.filter_cons, h, ih, add_comm]

theorem list_eq_singleton_of_length_one_mem {α : Type} {I : List α} {g : α}
    (h1 : I.length = 1) (h2 : g ∈ I) : I = [g] := by
  cases I with
  | nil => cases h2
  | cons x l =>
      cases l with
      | nil =>
          rcases List.mem_cons.mp h2 with rfl | hl
          · rfl
          · cases hl
      | cons y l => simp at h1

/-! ### Claim C3 -/

/-- Claim C3: for every (canonical barcode, UMI) group of the
Deduplication & Aggregation Engine: the `dropped_ambiguous_umi` metric
counts exactly the groups whose resolved gene-set intersection is empty;
such a group contributes zero to every count (it is discarded); the
per-(barcode, gene) count is the sum of the per-group contributions
(one per group resolved to that gene, or the fractional contributions
under `fractional_split`); and under the `discard` policy it equals the
number of distinct UMI groups assigned to that gene under that
barcode. -/
theorem c3_group_aggregation (m : Nat → Option (List String))
    (pol : MultiGenePolicy) (corr : String → String) (s : List Record)
    (b g : String) :
    ((runEngine m pol corr s).droppedAmbiguous =
      ((groupKeys corr (resolvedRecords m s)).filter fun k =>
        decide (groupInter m (groupRecs corr (resolvedRecords m s) k) = [])).length) ∧
    (∀ k ∈ groupKeys corr (resolvedRecords m s),
      groupInter m (groupRecs corr (resolvedRecords m s) k) = [] →
      ∀ g2, groupContrib m pol (groupRecs corr (resolvedRecords m s) k) g2 = 0) ∧
    ((runEngine m pol corr s).counts b g =
      ((groupKeys corr (resolvedRecords m s)).map fun k =>
        if k.1 = b then
          groupContrib m pol (groupRecs corr (resolvedRecords m s) k) g
        else 0).sum) ∧
    (pol = MultiGenePolicy.discard →
      (runEngine m pol corr s).counts b g =
        (((groupKeys corr (resolvedRecords m s)).filter fun k =>
          decide (k.1 = b ∧
            groupInter m (groupRecs corr (resolvedRecords m s) k) = [g])).length :
              ℚ)) := by
  refine ⟨?_, ?_, ?_, ?_⟩
  · rw [runEngine, engineOf, foldl_engine_dropped]
    simp only [emptyAgg, Nat.zero_add]
    exact sum_ite_one_nat _ _
  · intro k _ hI g2
    simp [groupContrib, hI]
  · rw [runEngine, engineOf, foldl_engine_counts]
    simp [emptyAgg]
  · intro hpol
    subst hpol
    rw [runEngine, engineOf, foldl_engine_counts]
    simp only [emptyAgg, Rat.zero_add, zero_add]
    rw [← sum_ite_one_rat
      (fun k => k.1 = b ∧
        groupInter m (groupRecs corr (resolvedRecords m s) k) = [g])]
    refine congrArg List.sum (List.map_congr_left fun k _ => ?_)
    by_cases hb : k.1 = b
    · rw [if_pos hb]
      by_cases hI : groupInter m (groupRecs corr (resolvedRecords m s) k) = [g]
      · rw [if_pos ⟨hb, hI⟩]
        simp [groupContrib, hI]
      · rw [if_neg fun hc => hI hc.2]
        unfold groupContrib
        by_cases h1 : (groupInter m (groupRecs corr (resolvedRecords m s) k)).length = 1 ∧
            g ∈ groupInter m (groupRecs corr (resolvedRecords m s) k)
        · exact absurd (list_eq_singleton_of_length_one_mem h1.1 h1.2) hI
        · rw [if_neg h1]
          simp
    · rw [if_neg hb, if_neg fun hc => hb hc.1]

/-- Concrete instantiation of `c3_group_aggregation` at a stream with an
ambiguous group: records (AAA, U1) map to classes resolving to disjoint
gene sets, so the group is dropped. -/
theorem c3_group_aggregation_witness :
    (runEngine
        (fun n => if n = 0 then some ["gX"] else if n = 1 then some ["gY"] else none)
        MultiGenePolicy.discard (fun b => b)
        [⟨"AAA", "U1", 0, 1⟩, ⟨"AAA", "U1", 1, 1⟩]).droppedAmbiguous = 1 ∧
    (runEngine
        (fun n => if n = 0 then some ["gX"] else if n = 1 then some ["gY"] else none)
        MultiGenePolicy.discard (fun b => b)
        [⟨"AAA", "U1", 0, 1⟩, ⟨"AAA", "U1", 1, 1⟩]).counts "AAA" "gX" = 0 := by
  have h := c3_group_aggregation
    (fun n => if n = 0 then some ["gX"] else if n = 1 then some ["gY"] else none)
    MultiGenePolicy.discard (fun b => b)
    [⟨"AAA", "U1", 0, 1⟩, ⟨"AAA", "U1", 1, 1⟩] "AAA" "gX"
  refine ⟨?_, ?_⟩
  · rw [h.1]; decide
  · rw [h.2.2.2 rfl]; decide

/-! ### Claim C5 -/

/-- Claim C5: a record whose equivalence class is absent from the
EquivalenceClass→GeneSet map is rejected non-fatally: it is tallied
under the `dropped_unmapped_class` metric, the aggregation engine's
state is unchanged by its presence, and the quantification output is
identical except for that metric — the record contributes zero entries
to the output matrix. -/
theorem c5_unmapped_class_rejected (m : Nat → Option (List String))
    (pol : MultiGenePolicy) (corr : String → String) (s : List Record)
    (r : Record) (hr : m r.ec = none) :
    droppedUnmappedClass m (s ++ [r]) = droppedUnmappedClass m s + 1 ∧
    runEngine m pol corr (s ++ [r]) = runEngine m pol corr s ∧
    ∀ expCells,
      quantRunWith m expCells corr pol (s ++ [r]) =
        { quantRunWith m expCells corr pol s with
            droppedUnmapped := (quantRunWith m expCells corr pol s).droppedUnmapped + 1 } := by
  have hres : resolvedRecords m (s ++ [r]) = resolvedRecords m s := by
    simp [resolvedRecords, List.filter_append, hr]
  have hdrop : droppedUnmappedClass m (s ++ [r]) = droppedUnmappedClass m s + 1 := by
    simp [droppedUnmappedClass, List.filter_append, hr]
  refine ⟨hdrop, ?_, ?_⟩
  · rw [runEngine, runEngine, hres]
  · intro expCells
    rw [quantRunWith, quantRunWith, runEngine, runEngine, hres, hdrop]
    simp [assemble]

/-- Concrete instantiation of `c5_unmapped_class_rejected`: one mapped
record plus one record of unknown class 7. -/
theorem c5_unmapped_class_rejected_witness :
    droppedUnmappedClass (fun n => if n = 0 then some ["gX"] else none)
      ([⟨"AAA", "U1", 0, 1⟩] ++ [⟨"AAA", "U2", 7, 1⟩]) =
      droppedUnmappedClass (fun n => if n = 0 then some ["gX"] else none)
        [⟨"AAA", "U1", 0, 1⟩] + 1 ∧
    runEngine (fun n => if n = 0 then some ["gX"] else none)
        MultiGenePolicy.discard (fun b => b)
        ([⟨"AAA", "U1", 0, 1⟩] ++ [⟨"AAA", "U2", 7, 1⟩]) =
      runEngine (fun n => if n = 0 then some ["gX"] else none)
        MultiGenePolicy.discard (fun b => b) [⟨"AAA", "U1", 0, 1⟩] ∧
    ∀ expCells,
      quantRunWith (fun n => if n = 0 then some ["gX"] else none) expCells
          (fun b => b) MultiGenePolicy.discard
          ([⟨"AAA", "U1", 0, 1⟩] ++ [⟨"AAA", "U2", 7, 1⟩]) =
        { quantRunWith (fun n => if n = 0 then some ["gX"] else none) expCells
            (fun b => b) MultiGenePolicy.discard [⟨"AAA", "U1", 0, 1⟩] with
            droppedUnmapped :=
              (quantRunWith (fun n => if n = 0 then some ["gX"] else none)
                expCells (fun b => b) MultiGenePolicy.discard
                [⟨"AAA", "U1", 0, 1⟩]).droppedUnmapped + 1 } :=
  c5_unmapped_class_rejected (fun n => if n = 0 then some ["gX"] else none)
    MultiGenePolicy.discard (fun b => b) [⟨"AAA", "U1", 0, 1⟩]
    ⟨"AAA", "U2", 7, 1⟩ rfl

/-! ### Claim C7 -/

/-- Claim C7: on the four-record input
`[(AAA, U1, class0, 1), (AAA, U1, class0, 1), (AAA, U2, class0, 1),
(AAT, U3, class0, 1)]` with `class0 → \x7bgeneX\x7d` and correction
multiplier 10, the core performs no barcode merge (the AAA:AAT
multiplicity ratio 3 is below the threshold), and the aggregate counts
are geneX = 2 for AAA (U1 deduplicated to one group) and geneX = 1 for
AAT. -/
theorem c7_scenario :
    corrBarcode
      [⟨"AAA", "U1", 0, 1⟩, ⟨"AAA", "U1", 0, 1⟩, ⟨"AAA", "U2", 0, 1⟩,
        ⟨"AAT", "U3", 0, 1⟩] 10 "AAA" = "AAA" ∧
    corrBarcode
      [⟨"AAA", "U1", 0, 1⟩, ⟨"AAA", "U1", 0, 1⟩, ⟨"AAA", "U2", 0, 1⟩,
        ⟨"AAT", "U3", 0, 1⟩] 10 "AAT" = "AAT" ∧
    (runEngine (fun n => if n = 0 then some ["geneX"] else none)
        MultiGenePolicy.discard
        (corrBarcode
          [⟨"AAA", "U1", 0, 1⟩, ⟨"AAA", "U1", 0, 1⟩, ⟨"AAA", "U2", 0, 1⟩,
            ⟨"AAT", "U3", 0, 1⟩] 10)
        [⟨"AAA", "U1", 0, 1⟩, ⟨"AAA", "U1", 0, 1⟩, ⟨"AAA", "U2", 0, 1⟩,
          ⟨"AAT", "U3", 0, 1⟩]).counts "AAA" "geneX" = 2 ∧
    (runEngine (fun n => if n = 0 then some ["geneX"] else none)
        MultiGenePolicy.discard
        (corrBarcode
          [⟨"AAA", "U1", 0, 1⟩, ⟨"AAA", "U1", 0, 1⟩, ⟨"AAA", "U2", 0, 1⟩,
            ⟨"AAT", "U3", 0, 1⟩] 10)
        [⟨"AAA", "U1", 0, 1⟩, ⟨"AAA", "U1", 0, 1⟩, ⟨"AAA", "U2", 0, 1⟩,
          ⟨"AAT", "U3", 0, 1⟩]).counts "AAT" "geneX" = 1 := by
  refine ⟨by decide, by decide, by decide, by decide⟩

/-! ### Claim C1 -/

theorem aggState_ext {a b : AggState} (h1 : a.counts = b.counts)
    (h2 : a.droppedAmbiguous = b.droppedAmbiguous) : a = b := by
  cases a; cases b
  cases h1; cases h2
  rfl

theorem engineOf_counts (m : Nat → Option (List String))
    (pol : MultiGenePolicy) (corr : String → String) (rs : List Record)
    (b g : String) :
    (engineOf m pol corr rs).counts b g =
      ((groupKeys corr rs).map fun k =>
        if k.1 = b then groupContrib m pol (groupRecs corr rs k) g
        else 0).sum := by
  rw [engineOf, foldl_engine_counts]
  simp [emptyAgg]

theorem engineOf_dropped (m : Nat → Option (List String))
    (pol : MultiGenePolicy) (corr : String → String) (rs : List Record) :
    (engineOf m pol corr rs).droppedAmbiguous =
      ((groupKeys corr rs).map fun k =>
        if groupInter m (groupRecs corr rs k) = [] then 1 else 0).sum := by
  rw [engineOf, foldl_engine_dropped]
  simp [emptyAgg]

/-- Aggregating two canonically-barcode-disjoint streams separately and
merging the partial aggregates gives the aggregate of the concatenated
stream. -/
theorem runEngine_append (m : Nat → Option (List String))
    (pol : MultiGenePolicy) (corr : String → String) (s₁ s₂ : List Record)
    (hd : chunkDisj corr s₁ s₂) :
    runEngine m pol corr (s₁ ++ s₂) =
      mergeAgg (runEngine m pol corr s₁) (runEngine m pol corr s₂) := by
  have hres : resolvedRecords m (s₁ ++ s₂) =
      resolvedRecords m s₁ ++ resolvedRecords m s₂ := by
    simp [resolvedRecords, List.filter_append]
  have hsub₁ : ∀ r ∈ resolvedRecords m s₁, r ∈ s₁ := fun r hr =>
    (List.mem_filter.mp hr).1
  have hsub₂ : ∀ r ∈ resolvedRecords m s₂, r ∈ s₂ := fun r hr =>
    (List.mem_filter.mp hr).1
  have hdiskeys : ∀ k ∈ (resolvedRecords m s₂).map
      (fun r => (corr r.barcode, r.umi)),
      k ∉ (resolvedRecords m s₁).map (fun r => (corr r.barcode, r.umi)) := by
    intro k hk2 hk1
    rcases List.mem_map.mp hk2 with ⟨q, hq, rfl⟩
    rcases List.mem_map.mp hk1 with ⟨r, hr, hreq⟩
    exact hd r (hsub₁ r hr) q (hsub₂ q hq) (congrArg Prod.fst hreq)
  have hkeys : groupKeys corr (resolvedRecords m s₁ ++ resolvedRecords m s₂) =
      groupKeys corr (resolvedRecords m s₁) ++
        groupKeys corr (resolvedRecords m s₂) := by
    unfold groupKeys
    rw [List.map_append]
    exact firstDedup_append_disjoint _ _ hdiskeys
  have hrec₁ : ∀ k ∈ groupKeys corr (resolvedRecords m s₁),
      groupRecs corr (resolvedRecords m s₁ ++ resolvedRecords m s₂) k =
        groupRecs corr (resolvedRecords m s₁) k := by
    intro k hk
    have hk2 := (mem_firstDedup _ _).mp hk
    rcases List.mem_map.mp hk2 with ⟨r, hr, rfl⟩
    unfold groupRecs
    rw [List.filter_append]
    have hnil : (resolvedRecords m s₂).filter
        (fun q => decide (corr q.barcode = (corr r.barcode, r.umi).1 ∧
          q.umi = (corr r.barcode, r.umi).2)) = [] := by
      rw [List.filter_eq_nil_iff]
      intro q hq hcond
      simp only [decide_eq_true_eq] at hcond
      exact hd r (hsub₁ r hr) q (hsub₂ q hq) hcond.1.symm
    rw [hnil, List.append_nil]
  have hrec₂ : ∀ k ∈ groupKeys corr (resolvedRecords m s₂),
      groupRecs corr (resolvedRecords m s₁ ++ resolvedRecords m s₂) k =
        groupRecs corr (resolvedRecords m s₂) k := by
    intro k hk
    have hk2 := (mem_firstDedup _ _).mp hk
    rcases List.mem_map.mp hk2 with ⟨q, hq, rfl⟩
    unfold groupRecs
    rw [List.filter_append]
    have hnil : (resolvedRecords m s₁).filter
        (fun r => decide (corr r.barcode = (corr q.barcode, q.umi).1 ∧
          r.umi = (corr q.barcode, q.umi).2)) = [] := by
      rw [List.filter_eq_nil_iff]
      intro r hr hcond
      simp only [decide_eq_true_eq] at hcond
      exact hd r (hsub₁ r hr) q (hsub₂ q hq) hcond.1
    rw [hnil, List.nil_append]
  rw [runEngine, runEngine, runEngine, hres]
  refine aggState_ext ?_ ?_
  · funext b g
    show (engineOf m pol corr
        (resolvedRecords m s₁ ++ resolvedRecords m s₂)).counts b g =
      (engineOf m pol corr (resolvedRecords m s₁)).counts b g +
        (engineOf m pol corr (resolvedRecords m s₂)).counts b g
    rw [engineOf_counts, engineOf_counts, engineOf_counts, hkeys,
      List.map_append, List.sum_append]
    congr 1
    · exact congrArg List.sum (List.map_congr_left fun k hk => by
        rw [hrec₁ k hk])
    · exact congrArg List.sum (List.map_congr_left fun k hk => by
        rw [hrec₂ k hk])
  · show (engineOf m pol corr
        (resolvedRecords m s₁ ++ resolvedRecords m s₂)).droppedAmbiguous =
      (engineOf m pol corr (resolvedRecords m s₁)).droppedAmbiguous +
        (engineOf m pol corr (resolvedRecords m s₂)).droppedAmbiguous
    rw [engineOf_dropped, engineOf_dropped, engineOf_dropped, hkeys,
      List.map_append, List.sum_append]
    congr 1
    · exact congrArg List.sum (List.map_congr_left fun k hk => by
        rw [hrec₁ k hk])
    · exact congrArg List.sum (List.map_congr_left fun k hk => by
        rw [hrec₂ k hk])

/-- Merging the per-chunk aggregates of pairwise canonically-barcode-
disjoint chunks gives the aggregate of the whole stream. -/
theorem foldr_merge_chunks (m : Nat → Option (List String))
    (pol : MultiGenePolicy) (corr : String → String) :
    ∀ cs : List (List Record), cs.Pairwise (chunkDisj corr) →
      ((cs.map fun c => runEngine m pol corr c).foldr mergeAgg emptyAgg) =
        runEngine m pol corr cs.flatten := by
  intro cs
  induction cs with
  | nil => intro _; rfl
  | cons c cs ih =>
      intro h
      rcases List.pairwise_cons.mp h with ⟨hc, hcs⟩
      have hflat : chunkDisj corr c cs.flatten := by
        intro r hr q hq
        rcases List.mem_flatten.mp hq with ⟨d, hd, hqd⟩
        exact hc d hd r hr q hqd
      simp only [List.map_cons, List.foldr_cons, ih hcs, List.flatten_cons]
      exact (runEngine_append m pol corr c cs.flatten hflat).symm

theorem droppedUnmappedClass_flatten (m : Nat → Option (List String)) :
    ∀ cs : List (List Record),
      (cs.map fun c => droppedUnmappedClass m c).sum =
        droppedUnmappedClass m cs.flatten := by
  intro cs
  induction cs with
  | nil => rfl
  | cons c cs ih =>
      simp only [List.map_cons, List.sum_cons, List.flatten_cons, ih]
      simp [droppedUnmappedClass, List.filter_append]

/-- Claim C1: for every valid input stream and fixed configuration, the
chunked (multi-worker) quantification core produces the same output as
the sequential core, for every partition of the stream into
canonically-barcode-disjoint chunks (the spec §5 worker model: each
worker owns a barcode range).  In particular the output is independent
of the thread count and the chunk boundaries, and is a pure function of
the input records and the configuration. -/
theorem c1_chunk_independence (m : Nat → Option (List String))
    (expCells : Nat) (mult : ℚ) (pol : MultiGenePolicy)
    (cs : List (List Record))
    (h : cs.Pairwise (chunkDisj (corrBarcode cs.flatten mult))) :
    chunkedQuantRun m expCells mult pol cs =
      quantRun m expCells mult pol cs.flatten := by
  simp only [chunkedQuantRun, quantRun, quantRunWith]
  rw [foldr_merge_chunks m pol _ cs h, droppedUnmappedClass_flatten]

/-- Concrete instantiation of `c1_chunk_independence`: a two-chunk
partition of a two-barcode stream. -/
theorem c1_chunk_independence_witness :
    List.Pairwise
      (chunkDisj (corrBarcode
        ([[⟨"AAA", "U1", 0, 1⟩], [⟨"TTT", "U2", 0, 2⟩]] :
          List (List Record)).flatten 10))
      [[⟨"AAA", "U1", 0, 1⟩], [⟨"TTT", "U2", 0, 2⟩]] ∧
    chunkedQuantRun (fun n => if n = 0 then some ["gX"] else none) 0 10
        MultiGenePolicy.discard
        [[⟨"AAA", "U1", 0, 1⟩], [⟨"TTT", "U2", 0, 2⟩]] =
      quantRun (fun n => if n = 0 then some ["gX"] else none) 0 10
        MultiGenePolicy.discard
        ([[⟨"AAA", "U1", 0, 1⟩], [⟨"TTT", "U2", 0, 2⟩]] :
          List (List Record)).flatten :=
  ⟨by decide,
   c1_chunk_independence (fun n => if n = 0 then some ["gX"] else none) 0 10
     MultiGenePolicy.discard [[⟨"AAA", "U1", 0, 1⟩], [⟨"TTT", "U2", 0, 2⟩]]
     (by decide)⟩

/-! ### Claim C6 -/

theorem except_map_ok_exists {ε α β : Type} (f : α → β) (x : Except ε α) :
    (∃ y, x.map f = Except.ok y) ↔ ∃ z, x = Except.ok z := by
  cases x <;> simp [Except.map]

/-- The reader succeeds exactly when every line parses into the expected
field count and the (barcode, UMI) keys — prefixed with the previous key
when there is one — are monotone. -/
theorem readStream_ok_iff :
    ∀ (ls : List (List String)) (prev : Option (String × String)),
      (∃ rs, readStream ls prev = Except.ok rs) ↔
        (∀ l ∈ ls, (parseLine l).isSome = true) ∧
          List.Chain' (fun a b => keyLE a b = true)
            (prev.toList ++ lineKeys ls) := by
  intro ls
  induction ls with
  | nil =>
      intro prev
      cases prev <;> simp [readStream, lineKeys]
  | cons l ls ih =>
      intro prev
      cases hp : parseLine l with
      | none =>
          constructor
          · rintro ⟨rs, hrs⟩
            rw [readStream, hp] at hrs
            cases hrs
          · rintro ⟨hall, _⟩
            have := hall l (List.mem_cons_self l ls)
            rw [hp] at this
            cases this
      | some r =>
          have hkeys : lineKeys (l :: ls) = rawKey r :: lineKeys ls := by
            simp [lineKeys, hp]
          cases prev with
          | none =>
              rw [readStream, hp]
              dsimp only
              rw [except_map_ok_exists, ih (some (rawKey r))]
              simp only [hkeys, Option.toList_some, Option.toList_none,
                List.nil_append, List.singleton_append]
              constructor
              · rintro ⟨hall, hch⟩
                exact ⟨fun x hx => by
                  rcases List.mem_cons.mp hx with rfl | hx
                  · simp [hp]
                  · exact hall x hx, hch⟩
              · rintro ⟨hall, hch⟩
                exact ⟨fun x hx => hall x (List.mem_cons_of_mem _ hx), hch⟩
          | some k =>
              rw [readStream, hp]
              dsimp only
              by_cases hk : keyLE k (rawKey r) = true
              · rw [if_pos hk]
                rw [except_map_ok_exists, ih (some (rawKey r))]
                simp only [hkeys, Option.toList_some, List.singleton_append,
                  List.chain'_cons]
                constructor
                · rintro ⟨hall, hch⟩
                  exact ⟨fun x hx => by
                    rcases List.mem_cons.mp hx with rfl | hx
                    · simp [hp]
                    · exact hall x hx, hk, hch⟩
                · rintro ⟨hall, _, hch⟩
                  exact ⟨fun x hx => hall x (List.mem_cons_of_mem _ hx), hch⟩
              · rw [if_neg hk]
                constructor
                · rintro ⟨rs, hrs⟩
                  cases hrs
                · rintro ⟨_, hch⟩
                  rw [hkeys] at hch
                  simp only [Option.toList_some, List.singleton_append,
                    List.chain'_cons] at hch
                  exact absurd hch.1 hk

/-- Claim C6: the Record Stream Reader fails with `MalformedStreamError`
exactly when some line does not parse into the expected field count or
the (barcode, UMI) ordering of consecutive parsed records is violated
(the keys are not monotone); otherwise it returns the record list.  The
failure is the reader's only error and aborts the run (the `Except`
short-circuits at the first violation). -/
theorem c6_reader_malformed (ls : List (List String)) :
    readStream ls none = Except.error StreamError.malformedStream ↔
      (∃ l ∈ ls, parseLine l = none) ∨
        ¬ List.Chain' (fun a b => keyLE a b = true) (lineKeys ls) := by
  have h := readStream_ok_iff ls none
  simp only [Option.toList_none, List.nil_append] at h
  constructor
  · intro herr
    by_contra hcon
    push_neg at hcon
    rcases hcon with ⟨h1, h2⟩
    have hok : (∀ l ∈ ls, (parseLine l).isSome = true) ∧
        List.Chain' (fun a b => keyLE a b = true) (lineKeys ls) := by
      refine ⟨fun l hl => ?_, h2⟩
      cases hpl : parseLine l with
      | none => exact absurd hpl (h1 l hl)
      | some r => rfl
    rcases h.mpr hok with ⟨rs, hrs⟩
    rw [herr] at hrs
    cases hrs
  · intro hbad
    cases hres : readStream ls none with
    | ok rs =>
        rcases h.mp ⟨rs, hres⟩ with ⟨hall, hch⟩
        rcases hbad with ⟨l, hl, hpl⟩ | hch2
        · have := hall l hl
          rw [hpl] at this
          cases this
        · exact absurd hch hch2
    | error e => cases e; rfl

/-! ### Claim C4 -/

theorem lexLt_trans :
    ∀ as bs cs : List Char, lexLt as bs = true → lexLt bs cs = true →
      lexLt as cs = true := by
  intro as
  induction as with
  | nil =>
      intro bs cs h1 h2
      cases bs with
      | nil => cases h1
      | cons b bs2 =>
          cases cs with
          | nil => cases h2
          | cons c cs2 => rfl
  | cons a as2 ih =>
      intro bs cs h1 h2
      cases bs with
      | nil => cases h1
      | cons b bs2 =>
          cases cs with
          | nil => cases h2
          | cons c cs2 =>
              rw [lexLt] at h1 h2 ⊢
              by_cases hab : a < b
              · rw [if_pos hab] at h1
                by_cases hbc : b < c
                · rw [if_pos (lt_trans hab hbc)]
                · rw [if_neg hbc] at h2
                  by_cases hcb : c < b
                  · rw [if_pos hcb] at h2; cases h2
                  · have hb : b = c := le_antisymm (not_lt.mp hcb) (not_lt.mp hbc)
                    rw [if_pos (hb ▸ hab)]
              · rw [if_neg hab] at h1
                by_cases hba : b < a
                · rw [if_pos hba] at h1; cases h1
                · rw [if_neg hba] at h1
                  have hb : a = b := le_antisymm (not_lt.mp hba) (not_lt.mp hab)
                  subst hb
                  by_cases hac : a < c
                  · rw [if_pos hac]
                  · rw [if_neg hac] at h2 ⊢
                    by_cases hca : c < a
                    · rw [if_pos hca] at h2; cases h2
                    · rw [if_neg hca] at h2 ⊢
                      exact ih bs2 cs2 h1 h2

theorem lexLt_connex :
    ∀ as bs : List Char, lexLt as bs = false → lexLt bs as = false →
      as = bs := by
  intro as
  induction as with
  | nil =>
      intro bs h1 _
      cases bs with
      | nil => rfl
      | cons b bs2 => cases h1
  | cons a as2 ih =>
      intro bs h1 h2
      cases bs with
      | nil => cases h2
      | cons b bs2 =>
          rw [lexLt] at h1 h2
          by_cases hab : a < b
          · rw [if_pos hab] at h1; cases h1
          · by_cases hba : b < a
            · rw [if_pos hba] at h2; cases h2
            · rw [if_neg hab, if_neg hba] at h1
              rw [if_neg hba, if_neg hab] at h2
              have ha : a = b := le_antisymm (not_lt.mp hba) (not_lt.mp hab)
              rw [ha, ih bs2 h1 h2]

theorem strLe_total (a b : String) : strLe a b = true ∨ strLe b a = true := by
  by_cases h1 : strLt a b = true
  · left; simp [strLe, h1]
  · by_cases h2 : strLt b a = true
    · right; simp [strLe, h2]
    · left
      have : a = b := by
        have := lexLt_connex a.data b.data
          (Bool.not_eq_true _ ▸ h1) (Bool.not_eq_true _ ▸ h2)
        exact String.ext this
      simp [strLe, this]

theorem strLe_trans (a b c : String) (h1 : strLe a b = true)
    (h2 : strLe b c = true) : strLe a c = true := by
  simp only [strLe, Bool.or_eq_true, decide_eq_true_eq] at h1 h2 ⊢
  rcases h1 with h1 | rfl
  · rcases h2 with h2 | rfl
    · exact Or.inl (lexLt_trans _ _ _ h1 h2)
    · exact Or.inl h1
  · exact h2

instance rankRelTotal (t : String → ℚ) : IsTotal String (rankRel t) := by
  constructor
  intro a b
  rcases lt_trichotomy (t a) (t b) with h | h | h
  · exact Or.inr (Or.inl h)
  · rcases strLe_total a b with hs | hs
    · exact Or.inl (Or.inr ⟨h, hs⟩)
    · exact Or.inr (Or.inr ⟨h.symm, hs⟩)
  · exact Or.inl (Or.inl h)

instance rankRelTrans (t : String → ℚ) : IsTrans String (rankRel t) := by
  constructor
  intro a b c h1 h2
  rcases h1 with h1 | ⟨h1e, h1s⟩
  · rcases h2 with h2 | ⟨h2e, _⟩
    · exact Or.inl (lt_trans h2 h1)
    · exact Or.inl (h2e ▸ h1)
  · rcases h2 with h2 | ⟨h2e, h2s⟩
    · exact Or.inl (h1e ▸ h2)
    · exact Or.inr ⟨h1e.trans h2e, strLe_trans a b c h1s h2s⟩

/-- The knee fold step keeps the accumulator or moves to the candidate
rank. -/
theorem kneeStep_choice (c : List ℚ) :
    ∀ (acc : Option Nat) (r : Nat),
      (fun acc r =>
        match acc with
        | none => some r
        | some best =>
            if kneeScore c best < kneeScore c r then some r else some best)
          acc r = acc ∨
      (fun acc r =>
        match acc with
        | none => some r
        | some best =>
            if kneeScore c best < kneeScore c r then some r else some best)
          acc r = some r := by
  intro acc r
  cases acc with
  | none => right; rfl
  | some best =>
      by_cases h : kneeScore c best < kneeScore c r
      · right; simp [h]
      · left; simp [h]

/-- A knee rank is always a member of the search window. -/
theorem kneeRank_mem_window (c : List ℚ) (expCells : Nat) (r : Nat)
    (h : kneeRank c expCells = some r) :
    r ∈ kneeWindow c.length expCells := by
  rcases foldl_choice_mem _ (kneeStep_choice c) _ _ _ h with h1 | h1
  · cases h1
  · exact h1

/-- Claim C4: the Cell Caller searches the knee only within the rank
window `[0.1×, 10×]` of the configured expected-cell-count; when the
expected-cell-count is zero the full rank range is searched; and the
barcode ranking underlying the retained set is deterministic: it is a
permutation of the observed barcodes sorted by descending total count
with ties broken by barcode lexical order. -/
theorem c4_cell_caller (c : List ℚ) (expCells : Nat) (t : String → ℚ)
    (bs : List String) :
    (∀ r, expCells ≠ 0 → kneeRank c expCells = some r →
      (expCells : ℚ) / 10 ≤ (r : ℚ) ∧ (r : ℚ) ≤ 10 * (expCells : ℚ)) ∧
    (kneeWindow c.length 0 = (List.range c.length).map fun i => i + 1) ∧
    (rankedBarcodes t bs).Sorted (rankRel t) ∧
    (rankedBarcodes t bs).Perm bs := by
  refine ⟨?_, ?_, ?_, ?_⟩
  · intro r hexp hr
    have hmem := kneeRank_mem_window c expCells r hr
    unfold kneeWindow at hmem
    rcases List.mem_filter.mp hmem with ⟨_, hcond⟩
    rw [if_neg hexp] at hcond
    exact of_decide_eq_true hcond
  · unfold kneeWindow
    exact List.filter_eq_self.mpr fun a _ => rfl
  · exact List.sorted_insertionSort (rankRel t) bs
  · exact List.perm_insertionSort (rankRel t) bs

/-- Concrete instantiation of `c4_cell_caller`: the count curve
`[9, 5, 1]` with expected-cell-count 1 has its knee at rank 1, inside
the window `[0.1, 10]`. -/
theorem c4_cell_caller_witness :
    (1 : Nat) ≠ 0 ∧
    kneeRank [(9 : ℚ), 5, 1] 1 = some 1 ∧
    (((1 : Nat) : ℚ) / 10 ≤ ((1 : Nat) : ℚ) ∧
      ((1 : Nat) : ℚ) ≤ 10 * ((1 : Nat) : ℚ)) :=
  ⟨by decide, by decide,
    (c4_cell_caller [(9 : ℚ), 5, 1] 1 (fun _ => 0) []).1 1 (by decide)
      (by decide)⟩

/-! ### Claims C8 and C9: getTranscript2GeneMap -/

theorem lookup_some_mem {d : List (String × String)} {t g : String}
    (h : d.lookup t = some g) : (t, g) ∈ d := by
  induction d with
  | nil => cases h
  | cons p d ih =>
      rcases p with ⟨k, v⟩
      rw [List.lookup_cons] at h
      split at h
      · next heq =>
          have ht : t = k := by simpa using heq
          cases h
          rw [ht]
          exact List.mem_cons_self _ _
      · exact List.mem_cons_of_mem _ (ih h)

theorem lookup_none_not_key {d : List (String × String)} {t : String}
    (h : d.lookup t = none) : t ∉ d.map Prod.fst := by
  induction d with
  | nil => simp
  | cons p d ih =>
      rcases p with ⟨k, v⟩
      rw [List.lookup_cons] at h
      split at h
      · cases h
      · next heq =>
          have ht : ¬t = k := by simpa using heq
          simp only [List.map_cons, List.mem_cons]
          rintro (rfl | hmem)
          · exact ht rfl
          · exact ih h hmem

theorem mem_lookup_of_keysNodup {d : List (String × String)} {t g : String}
    (hk : (d.map Prod.fst).Nodup) (h : (t, g) ∈ d) :
    d.lookup t = some g := by
  induction d with
  | nil => cases h
  | cons p d ih =>
      rcases p with ⟨k, v⟩
      simp only [List.map_cons, List.nodup_cons] at hk
      rw [List.lookup_cons]
      rcases List.mem_cons.mp h with heq | hmem
      · cases heq
        simp
      · have ht : ¬t = k := by
          rintro rfl
          exact hk.1 (List.mem_map.mpr ⟨(t, g), hmem, rfl⟩)
        have : (t == k) = false := by simpa using ht
        rw [this]
        exact ih hk.2 hmem

theorem keysNodup_functional {d : List (String × String)} {t g1 g2 : String}
    (hk : (d.map Prod.fst).Nodup) (h1 : (t, g1) ∈ d) (h2 : (t, g2) ∈ d) :
    g1 = g2 := by
  have e1 := mem_lookup_of_keysNodup hk h1
  have e2 := mem_lookup_of_keysNodup hk h2
  rw [e1] at e2
  cases e2
  rfl

theorem t2gInsert_ok_keysNodup {d d2 : List (String × String)} {e : GTFEntry}
    (h : t2gInsert d e = Except.ok d2) (hk : (d.map Prod.fst).Nodup) :
    (d2.map Prod.fst).Nodup := by
  unfold t2gInsert at h
  cases hl : d.lookup e.transcript_id with
  | some g =>
      rw [hl] at h
      dsimp only at h
      by_cases hg : g = e.gene_id
      · rw [if_pos hg] at h
        cases h
        exact hk
      · rw [if_neg hg] at h
        cases h
  | none =>
      rw [hl] at h
      cases h
      rw [List.map_append]
      simp only [List.map_cons, List.map_nil]
      rw [List.nodup_append]
      refine ⟨hk, List.nodup_singleton _, ?_⟩
      intro a ha hb
      simp only [List.mem_cons, List.not_mem_nil, or_false] at hb
      subst hb
      exact lookup_none_not_key hl ha

theorem t2gInsert_ok_grows {d d2 : List (String × String)} {e : GTFEntry}
    (h : t2gInsert d e = Except.ok d2) :
    ∀ p ∈ d, p ∈ d2 := by
  unfold t2gInsert at h
  cases hl : d.lookup e.transcript_id with
  | some g =>
      rw [hl] at h
      dsimp only at h
      by_cases hg : g = e.gene_id
      · rw [if_pos hg] at h; cases h; exact fun p hp => hp
      · rw [if_neg hg] at h; cases h
  | none =>
      rw [hl] at h
      cases h
      exact fun p hp => List.mem_append_left _ hp

theorem t2gInsert_ok_mem {d d2 : List (String × String)} {e : GTFEntry}
    (h : t2gInsert d e = Except.ok d2) (_hk : (d.map Prod.fst).Nodup) :
    (e.transcript_id, e.gene_id) ∈ d2 := by
  unfold t2gInsert at h
  cases hl : d.lookup e.transcript_id with
  | some g =>
      rw [hl] at h
      dsimp only at h
      by_cases hg : g = e.gene_id
      · rw [if_pos hg] at h
        cases h
        exact hg ▸ lookup_some_mem hl
      · rw [if_neg hg] at h; cases h
  | none =>
      rw [hl] at h
      cases h
      exact List.mem_append_right _ (List.mem_cons_self _ _)

theorem t2gInsert_ok_bound {d d2 : List (String × String)} {e : GTFEntry}
    (h : t2gInsert d e = Except.ok d2) :
    ∀ p ∈ d2, p ∈ d ∨ p = (e.transcript_id, e.gene_id) := by
  unfold t2gInsert at h
  cases hl : d.lookup e.transcript_id with
  | some g =>
      rw [hl] at h
      dsimp only at h
      by_cases hg : g = e.gene_id
      · rw [if_pos hg] at h; cases h; exact fun p hp => Or.inl hp
      · rw [if_neg hg] at h; cases h
  | none =>
      rw [hl] at h
      cases h
      intro p hp
      rcases List.mem_append.mp hp with hp | hp
      · exact Or.inl hp
      · simp only [List.mem_cons, List.not_mem_nil, or_false] at hp
        exact Or.inr hp

theorem t2gBuild_ok_keysNodup :
    ∀ (es : List GTFEntry) (d d2 : List (String × String)),
      t2gBuild d es = Except.ok d2 → (d.map Prod.fst).Nodup →
      (d2.map Prod.fst).Nodup := by
  intro es
  induction es with
  | nil =>
      intro d d2 h hk
      cases h
      exact hk
  | cons e es ih =>
      intro d d2 h hk
      rw [t2gBuild] at h
      cases hi : t2gInsert d e with
      | ok dmid =>
          rw [hi] at h
          exact ih dmid d2 h (t2gInsert_ok_keysNodup hi hk)
      | error err => rw [hi] at h; cases h

theorem t2gBuild_ok_grows :
    ∀ (es : List GTFEntry) (d d2 : List (String × String)),
      t2gBuild d es = Except.ok d2 → ∀ p ∈ d, p ∈ d2 := by
  intro es
  induction es with
  | nil =>
      intro d d2 h
      cases h
      exact fun p hp => hp
  | cons e es ih =>
      intro d d2 h
      rw [t2gBuild] at h
      cases hi : t2gInsert d e with
      | ok dmid =>
          rw [hi] at h
          exact fun p hp => ih dmid d2 h p (t2gInsert_ok_grows hi p hp)
      | error err => rw [hi] at h; cases h

theorem t2gBuild_ok_mem :
    ∀ (es : List GTFEntry) (d d2 : List (String × String)),
      t2gBuild d es = Except.ok d2 → (d.map Prod.fst).Nodup →
      ∀ e ∈ es, (e.transcript_id, e.gene_id) ∈ d2 := by
  intro es
  induction es with
  | nil => intro d d2 _ _ e he; cases he
  | cons f es ih =>
      intro d d2 h hk e he
      rw [t2gBuild] at h
      cases hi : t2gInsert d f with
      | ok dmid =>
          rw [hi] at h
          rcases List.mem_cons.mp he with rfl | he2
          · exact t2gBuild_ok_grows es dmid d2 h _
              (t2gInsert_ok_mem hi hk)
          · exact ih dmid d2 h (t2gInsert_ok_keysNodup hi hk) e he2
      | error err => rw [hi] at h; cases h

theorem t2gBuild_ok_bound :
    ∀ (es : List GTFEntry) (d d2 : List (String × String)),
      t2gBuild d es = Except.ok d2 →
      ∀ p ∈ d2, p ∈ d ∨ ∃ e ∈ es, p = (e.transcript_id, e.gene_id) := by
  intro es
  induction es with
  | nil =>
      intro d d2 h p hp
      cases h
      exact Or.inl hp
  | cons f es ih =>
      intro d d2 h p hp
      rw [t2gBuild] at h
      cases hi : t2gInsert d f with
      | ok dmid =>
          rw [hi] at h
          rcases ih dmid d2 h p hp with hmid | ⟨e, he, hpe⟩
          · rcases t2gInsert_ok_bound hi p hmid with hd | hpe
            · exact Or.inl hd
            · exact Or.inr ⟨f, List.mem_cons_self _ _, hpe⟩
          · exact Or.inr ⟨e, List.mem_cons_of_mem _ he, hpe⟩
      | error err => rw [hi] at h; cases h

theorem t2gBuild_error_valueError :
    ∀ (es : List GTFEntry) (d : List (String × String)) (err : PyError),
      t2gBuild d es = Except.error err → err = PyError.valueError := by
  intro es
  induction es with
  | nil => intro d err h; cases h
  | cons e es ih =>
      intro d err h
      rw [t2gBuild] at h
      cases hi : t2gInsert d e with
      | ok dmid => rw [hi] at h; exact ih dmid err h
      | error e2 =>
          rw [hi] at h
          cases h
          unfold t2gInsert at hi
          cases hl : d.lookup e.transcript_id with
          | some g =>
              rw [hl] at hi
              dsimp only at hi
              by_cases hg : g = e.gene_id
              · rw [if_pos hg] at hi; cases hi
              · rw [if_neg hg] at hi; cases hi; rfl
          | none => rw [hl] at hi; cases hi

theorem t2gBuild_ok_of_conflictFree :
    ∀ (es : List GTFEntry) (es₀ : List GTFEntry)
      (d : List (String × String)),
      ¬hasConflict es₀ → (∀ e ∈ es, e ∈ es₀) →
      (∀ p ∈ d, ∃ e ∈ es₀, p = (e.transcript_id, e.gene_id)) →
      ∃ d2, t2gBuild d es = Except.ok d2 := by
  intro es
  induction es with
  | nil => intro es₀ d _ _ _; exact ⟨d, rfl⟩
  | cons e es ih =>
      intro es₀ d hnc hsub hd
      rw [t2gBuild]
      cases hl : d.lookup e.transcript_id with
      | some g =>
          have hmem := lookup_some_mem hl
          rcases hd _ hmem with ⟨f, hf, hpf⟩
          have hft : e.transcript_id = f.transcript_id :=
            congrArg Prod.fst hpf
          have hfg : g = f.gene_id := congrArg Prod.snd hpf
          have hge : g = e.gene_id := by
            by_contra hne
            exact hnc ⟨e, hsub e (List.mem_cons_self _ _), f, hf, hft,
              fun hgg => hne (hfg ▸ hgg ▸ rfl)⟩
          rw [t2gInsert, hl]
          dsimp only
          rw [if_pos hge]
          exact ih es₀ d hnc (fun x hx => hsub x (List.mem_cons_of_mem _ hx)) hd
      | none =>
          rw [t2gInsert, hl]
          refine ih es₀ (d ++ [(e.transcript_id, e.gene_id)]) hnc
            (fun x hx => hsub x (List.mem_cons_of_mem _ hx)) ?_
          intro p hp
          rcases List.mem_append.mp hp with hp | hp
          · exact hd p hp
          · simp only [List.mem_cons, List.not_mem_nil, or_false] at hp
            exact ⟨e, hsub e (List.mem_cons_self _ _), hp⟩

theorem t2gBuild_append (es₁ es₂ : List GTFEntry) :
    ∀ d, t2gBuild d (es₁ ++ es₂) =
      match t2gBuild d es₁ with
      | Except.ok d2 => t2gBuild d2 es₂
      | Except.error e => Except.error e := by
  induction es₁ with
  | nil => intro d; rfl
  | cons e es₁ ih =>
      intro d
      rw [List.cons_append, t2gBuild, t2gBuild]
      cases t2gInsert d e with
      | ok dmid => exact ih dmid
      | error err => rfl

theorem getT2G_eq (gs : List GTFEntry) (mixed : Bool) (gs2 : List GTFEntry) :
    getTranscript2GeneMap gs mixed gs2 =
      match t2gBuild [] (t2gEntries gs mixed gs2) with
      | Except.error e => Except.error e
      | Except.ok d => Except.ok (t2gHeader :: (sortPairs d).map t2gLine) := by
  cases mixed with
  | false =>
      rw [getTranscript2GeneMap]
      simp only [t2gEntries, Bool.false_eq_true, if_false, List.append_nil]
  | true =>
      rw [getTranscript2GeneMap]
      simp only [t2gEntries, if_true]
      rw [t2gBuild_append]
      cases t2gBuild [] gs with
      | error e => rfl
      | ok d =>
          cases t2gBuild d gs2 with
          | error e => rfl
          | ok d2 => rfl

theorem lexLt_irrefl : ∀ as : List Char, lexLt as as = false := by
  intro as
  induction as with
  | nil => rfl
  | cons a as ih =>
      rw [lexLt, if_neg (lt_irrefl a), if_neg (lt_irrefl a)]
      exact ih

theorem strLt_asymm (a b : String) (h : strLt a b = true) :
    strLt b a = false := by
  by_contra hc
  have h2 : strLt b a = true := by
    cases hx : strLt b a
    · exact absurd hx hc
    · rfl
  have h3 := lexLt_trans a.data b.data a.data h h2
  rw [lexLt_irrefl] at h3
  cases h3

theorem strLe_antisymm (a b : String) (h1 : strLe a b = true)
    (h2 : strLe b a = true) : a = b := by
  simp only [strLe, Bool.or_eq_true, decide_eq_true_eq] at h1 h2
  rcases h1 with h1 | rfl
  · rcases h2 with h2 | rfl
    · have := strLt_asymm a b h1
      rw [h2] at this
      cases this
    · rfl
  · rfl

theorem strLt_trans (a b c : String) (h1 : strLt a b = true)
    (h2 : strLt b c = true) : strLt a c = true :=
  lexLt_trans a.data b.data c.data h1 h2

theorem strConnex (a b : String) (h1 : strLt a b = false)
    (h2 : strLt b a = false) : a = b :=
  String.ext (lexLt_connex a.data b.data h1 h2)

theorem pairLeR_iff (p q : String × String) :
    pairLeR p q ↔
      strLt p.1 q.1 = true ∨ (p.1 = q.1 ∧ strLe p.2 q.2 = true) := by
  simp [pairLeR, pairLe, Bool.or_eq_true, Bool.and_eq_true, decide_eq_true_eq]

instance pairLeRTotal : IsTotal (String × String) pairLeR := by
  constructor
  intro p q
  cases h1 : strLt p.1 q.1 with
  | true => exact Or.inl ((pairLeR_iff p q).mpr (Or.inl h1))
  | false =>
      cases h2 : strLt q.1 p.1 with
      | true => exact Or.inr ((pairLeR_iff q p).mpr (Or.inl h2))
      | false =>
          have hk : p.1 = q.1 := strConnex _ _ h1 h2
          rcases strLe_total p.2 q.2 with hs | hs
          · exact Or.inl ((pairLeR_iff p q).mpr (Or.inr ⟨hk, hs⟩))
          · exact Or.inr ((pairLeR_iff q p).mpr (Or.inr ⟨hk.symm, hs⟩))

instance pairLeRTrans : IsTrans (String × String) pairLeR := by
  constructor
  intro p q u h1 h2
  rcases (pairLeR_iff p q).mp h1 with h1 | ⟨h1e, h1s⟩
  · rcases (pairLeR_iff q u).mp h2 with h2 | ⟨h2e, _⟩
    · exact (pairLeR_iff p u).mpr (Or.inl (strLt_trans _ _ _ h1 h2))
    · exact (pairLeR_iff p u).mpr (Or.inl (h2e ▸ h1))
  · rcases (pairLeR_iff q u).mp h2 with h2 | ⟨h2e, h2s⟩
    · exact (pairLeR_iff p u).mpr (Or.inl (h1e ▸ h2))
    · exact (pairLeR_iff p u).mpr
        (Or.inr ⟨h1e.trans h2e, strLe_trans _ _ _ h1s h2s⟩)

instance pairLeRAntisymm : IsAntisymm (String × String) pairLeR := by
  constructor
  intro p q h1 h2
  rcases (pairLeR_iff p q).mp h1 with h1 | ⟨h1e, h1s⟩
  · rcases (pairLeR_iff q p).mp h2 with h2 | ⟨h2e, _⟩
    · have := strLt_asymm _ _ h1
      rw [h2] at this
      cases this
    · rw [h2e] at h1
      rw [strLt, lexLt_irrefl] at h1
      cases h1
  · rcases (pairLeR_iff q p).mp h2 with h2 | ⟨_, h2s⟩
    · rw [h1e] at h2
      rw [strLt, lexLt_irrefl] at h2
      cases h2
    · rcases p with ⟨p1, p2⟩
      rcases q with ⟨q1, q2⟩
      dsimp only at h1e h1s h2s
      rw [h1e, strLe_antisymm _ _ h1s h2s]

/-- Claim C8: `getTranscript2GeneMap` raises `ValueError` if and only if
some transcript_id in the iterated geneset (both genesets when
`mixed_species` is set) is associated with two distinct gene_ids; when
no such conflict exists, the written output contains every encountered
transcript_id mapped to its unique gene_id. -/
theorem c8_t2g_valueerror (gs : List GTFEntry) (mixed : Bool)
    (gs2 : List GTFEntry) :
    (getTranscript2GeneMap gs mixed gs2 = Except.error PyError.valueError ↔
      hasConflict (t2gEntries gs mixed gs2)) ∧
    (∀ out, getTranscript2GeneMap gs mixed gs2 = Except.ok out →
      ∀ e ∈ t2gEntries gs mixed gs2,
        t2gLine (e.transcript_id, e.gene_id) ∈ out) := by
  have heq := getT2G_eq gs mixed gs2
  constructor
  · constructor
    · intro herr
      by_contra hnc
      rcases t2gBuild_ok_of_conflictFree (t2gEntries gs mixed gs2)
          (t2gEntries gs mixed gs2) [] hnc (fun e he => he)
          (fun p hp => absurd hp (List.not_mem_nil p)) with ⟨d2, hok⟩
      rw [heq, hok] at herr
      cases herr
    · intro hc
      cases hb : t2gBuild [] (t2gEntries gs mixed gs2) with
      | ok d2 =>
          exfalso
          rcases hc with ⟨e, he, f, hf, hft, hfg⟩
          have h1 := t2gBuild_ok_mem _ [] d2 hb (by simp) e he
          have h2 := t2gBuild_ok_mem _ [] d2 hb (by simp) f hf
          have hk := t2gBuild_ok_keysNodup _ [] d2 hb (by simp)
          rw [← hft] at h2
          exact hfg (keysNodup_functional hk h1 h2)
      | error err =>
          rw [heq, hb, t2gBuild_error_valueError _ [] err hb]
  · intro out hout e he
    cases hb : t2gBuild [] (t2gEntries gs mixed gs2) with
    | error err =>
        rw [heq, hb] at hout
        cases hout
    | ok d2 =>
        rw [heq, hb] at hout
        dsimp only at hout
        cases hout
        have hmem := t2gBuild_ok_mem _ [] d2 hb (by simp) e he
        have hsort : (e.transcript_id, e.gene_id) ∈ sortPairs d2 :=
          (List.perm_insertionSort pairLeR d2).mem_iff.mpr hmem
        exact List.mem_cons_of_mem _ (List.mem_map_of_mem _ hsort)

/-- Concrete instantiation of `c8_t2g_valueerror`: a conflict-free
one-entry geneset, whose entry is written to the output. -/
theorem c8_t2g_valueerror_witness :
    getTranscript2GeneMap [⟨"t1", "g1"⟩] false [] =
      Except.ok ["transcript_id\tgene_id", "t1\tg1"] ∧
    t2gLine ("t1", "g1") ∈ ["transcript_id\tgene_id", "t1\tg1"] :=
  ⟨by rfl,
   (c8_t2g_valueerror [⟨"t1", "g1"⟩] false []).2
     ["transcript_id\tgene_id", "t1\tg1"] (by rfl) ⟨"t1", "g1"⟩
     (by decide)⟩

/-- Claim C9: a successful `getTranscript2GeneMap` output begins with
the header line `transcript_id\tgene_id` followed by one tab-separated
line per transcript in strictly ascending transcript_id order; and for
conflict-free genesets the output is a function of the set of
(transcript_id, gene_id) pairs alone — independent of the order the
entries appear in the geneset. -/
theorem c9_t2g_sorted_deterministic (gs : List GTFEntry) (mixed : Bool)
    (gs2 : List GTFEntry) (gs' : List GTFEntry) (mixed' : Bool)
    (gs2' : List GTFEntry) (out out' : List String)
    (h : getTranscript2GeneMap gs mixed gs2 = Except.ok out) :
    (∃ ps : List (String × String),
      out = t2gHeader :: ps.map t2gLine ∧
      ps.Pairwise fun p q => strLt p.1 q.1 = true) ∧
    (getTranscript2GeneMap gs' mixed' gs2' = Except.ok out' →
      (∀ p : String × String,
        p ∈ entryPairs (t2gEntries gs mixed gs2) ↔
        p ∈ entryPairs (t2gEntries gs' mixed' gs2')) →
      out = out') := by
  have heq := getT2G_eq gs mixed gs2
  cases hb : t2gBuild [] (t2gEntries gs mixed gs2) with
  | error err =>
      rw [heq, hb] at h
      cases h
  | ok d2 =>
      rw [heq, hb] at h
      dsimp only at h
      cases h
      have hk := t2gBuild_ok_keysNodup _ [] d2 hb (by simp)
      have hmemd : ∀ p, p ∈ d2 ↔ p ∈ entryPairs (t2gEntries gs mixed gs2) := by
        intro p
        constructor
        · intro hp
          rcases t2gBuild_ok_bound _ [] d2 hb p hp with hnil | ⟨e, he, rfl⟩
          · cases hnil
          · exact List.mem_map_of_mem _ he
        · intro hp
          rcases List.mem_map.mp hp with ⟨e, he, rfl⟩
          exact t2gBuild_ok_mem _ [] d2 hb (by simp) e he
      constructor
      · refine ⟨sortPairs d2, rfl, ?_⟩
        have hsorted : (sortPairs d2).Pairwise pairLeR :=
          List.sorted_insertionSort pairLeR d2
        have hknodup : ((sortPairs d2).map Prod.fst).Nodup := by
          unfold sortPairs
          rw [((List.perm_insertionSort pairLeR d2).map Prod.fst).nodup_iff]
          exact hk
        have hdist : (sortPairs d2).Pairwise fun p q => p.1 ≠ q.1 :=
          List.pairwise_map.mp hknodup
        exact (hsorted.and hdist).imp fun hpq => by
          rcases (pairLeR_iff _ _).mp hpq.1 with hlt | ⟨he, _⟩
          · exact hlt
          · exact absurd he hpq.2
      · intro h2 hiff
        have heq2 := getT2G_eq gs' mixed' gs2'
        cases hb2 : t2gBuild [] (t2gEntries gs' mixed' gs2') with
        | error err =>
            rw [heq2, hb2] at h2
            cases h2
        | ok d2b =>
            rw [heq2, hb2] at h2
            dsimp only at h2
            cases h2
            have hkb := t2gBuild_ok_keysNodup _ [] d2b hb2 (by simp)
            have hmemdb : ∀ p, p ∈ d2b ↔
                p ∈ entryPairs (t2gEntries gs' mixed' gs2') := by
              intro p
              constructor
              · intro hp
                rcases t2gBuild_ok_bound _ [] d2b hb2 p hp with hnil | ⟨e, he, rfl⟩
                · cases hnil
                · exact List.mem_map_of_mem _ he
              · intro hp
                rcases List.mem_map.mp hp with ⟨e, he, rfl⟩
                exact t2gBuild_ok_mem _ [] d2b hb2 (by simp) e he
            have hnd : d2.Nodup := List.Nodup.of_map Prod.fst hk
            have hndb : d2b.Nodup := List.Nodup.of_map Prod.fst hkb
            have hperm : d2.Perm d2b := by
              rw [List.perm_ext_iff_of_nodup hnd hndb]
              intro p
              rw [hmemd p, hiff p, hmemdb p]
            have hsp : sortPairs d2 = sortPairs d2b :=
              List.eq_of_perm_of_sorted
                (((List.perm_insertionSort pairLeR d2).trans hperm).trans
                  (List.perm_insertionSort pairLeR d2b).symm)
                (List.sorted_insertionSort pairLeR d2)
                (List.sorted_insertionSort pairLeR d2b)
            rw [hsp]

/-- Concrete instantiation of `c9_t2g_sorted_deterministic`: two
genesets holding the same two entries in opposite orders produce the
identical sorted output. -/
theorem c9_t2g_sorted_deterministic_witness :
    (∃ ps : List (String × String),
      (["transcript_id\tgene_id", "t1\tg1", "t2\tg2"] : List String) =
        t2gHeader :: ps.map t2gLine ∧
      ps.Pairwise fun p q => strLt p.1 q.1 = true) ∧
    (["transcript_id\tgene_id", "t1\tg1", "t2\tg2"] : List String) =
      ["transcript_id\tgene_id", "t1\tg1", "t2\tg2"] :=
  have h9 := c9_t2g_sorted_deterministic [⟨"t2", "g2"⟩, ⟨"t1", "g1"⟩] false []
    [⟨"t1", "g1"⟩, ⟨"t2", "g2"⟩] false []
    ["transcript_id\tgene_id", "t1\tg1", "t2\tg2"]
    ["transcript_id\tgene_id", "t1\tg1", "t2\tg2"] (by rfl)
  ⟨h9.1, h9.2 (by rfl) fun p => by
    simp [entryPairs, t2gEntries, or_comm]⟩

end Scflow
